import Mathlib

/-!
Verification development for the MapGIS binary-file reader
(`src/pymapgis.py` of the ConvertMapGIS repository).

The Python source is shallowly embedded: a binary file is a `List Nat` of
byte values, file reads are pure slices, `struct.unpack` is modelled as an
explicit little-endian decoder that fails (as `struct.error` does) when the
buffer has the wrong size, and Python exceptions are the error side of
`Except`.  Floating point scale values are modelled as rationals; the
arithmetic performed on them by the code under scrutiny (division by 1000,
comparison with 0) is exact, so this is faithful for the properties proved
here.
-/

deriving instance DecidableEq for Except

/-- Errors that the Python code can raise.  These are the exceptions that
actually occur in `src/pymapgis.py`: its own `InvalidFileError`, the raw
`struct.error` from a short unpack buffer, `KeyError` from a failed dict
lookup, `ValueError`, and `OSError` from a negative seek.  The source
defines no dedicated header-corruption error. -/
inductive PyErr where
  | invalidFile : PyErr
  | structError : PyErr
  | keyError : PyErr
  | valueError : String → PyErr
  | negativeSeek : PyErr
deriving DecidableEq

/-- A read of `n` bytes starting at `pos` from an in-memory file: returns
fewer than `n` bytes (silently, as Python `file.read` does) when the file
ends early. -/
def readBytes (file : List Nat) (pos n : Nat) : List Nat :=
  (file.drop pos).take n

/-- Little-endian value of a byte list. -/
def leNat (bs : List Nat) : Nat :=
  bs.foldr (fun b acc => b + 256 * acc) 0

/-- Reinterpret an unsigned 32-bit value as the signed value
`struct.unpack` with format `i` produces. -/
def toSigned32 (v : Nat) : Int :=
  if v < 2 ^ 31 then (v : Int) else (v : Int) - 2 ^ 32

/-- `struct.unpack('1i', bs)`: exactly 4 bytes or `struct.error`. -/
def unpack_i32 (bs : List Nat) : Except PyErr Int :=
  if bs.length = 4 then .ok (toSigned32 (leNat bs)) else .error .structError

/-- `struct.unpack('2i', bs)`: exactly 8 bytes or `struct.error`. -/
def unpack_2i (bs : List Nat) : Except PyErr (Int × Int) :=
  if bs.length = 8 then do
    let a ← unpack_i32 (bs.take 4)
    let b ← unpack_i32 (bs.drop 4)
    .ok (a, b)
  else .error .structError

/-- The three layer types recognised by `_detect_shape_type`. -/
inductive ShapeType where
  | POINT : ShapeType
  | LINE : ShapeType
  | POLYGON : ShapeType
deriving DecidableEq

/-- Byte values of the 8-byte magic tag for point layers (`WMAP` backquote `D22`). -/
def magicPoint : List Nat := [87, 77, 65, 80, 96, 68, 50, 50]

/-- Byte values of the 8-byte magic tag for polygon layers. -/
def magicPolygon : List Nat := [87, 77, 65, 80, 96, 68, 50, 51]

/-- Byte values of the 8-byte magic tag for line layers. -/
def magicLine : List Nat := [87, 77, 65, 80, 96, 68, 50, 49]

/-- `_detect_shape_type`: read the first 8 bytes and classify, raising
`InvalidFileError` on an unrecognised tag. -/
def detect_shape_type (file : List Nat) : Except PyErr ShapeType :=
  let m := readBytes file 0 8
  if m = magicPoint then .ok .POINT
  else if m = magicPolygon then .ok .POLYGON
  else if m = magicLine then .ok .LINE
  else .error .invalidFile

/-- `_read_headers`: unpack the 4-byte table offset found at file offset 12
(after the 8-byte tag and 4 skipped bytes), seek there and read ten 10-byte
blocks.  Each `file.read(10)` silently returns the available bytes, so a
header table shorter than 100 bytes produces short blocks, not an error. -/
def read_headers (file : List Nat) : Except PyErr (List (List Nat)) := do
  let ds ← unpack_i32 (readBytes file 12 4)
  if ds < 0 then .error .negativeSeek
  else .ok ((List.range 10).map (fun i => readBytes file (ds.toNat + 10 * i) 10))

/-- Which header block `_parse_feature_data` unpacks first for each layer
type (index 2 for points and lines, index 9 for polygons). -/
def headerIndexFor : ShapeType → Nat
  | .POINT => 2
  | .LINE => 2
  | .POLYGON => 9

/-- The decode pipeline from `open` through the first header-block unpack in
`_parse_feature_data`: detect the layer type, read the ten header blocks,
then `struct.unpack('2i', headers[k][:-2])`.  Python `[:-2]` is
`take (length - 2)`. -/
def decode_header_phase (file : List Nat) : Except PyErr (Int × Int) := do
  let st ← detect_shape_type file
  let hs ← read_headers file
  let hb := hs.getD (headerIndexFor st) []
  unpack_2i (hb.take (hb.length - 2))

/-- A line-layer file whose header table starts at offset 16 = end of file:
every header block is empty, so the header table holds 0 < 100 bytes. -/
def fileC1 : List Nat := magicLine ++ [0, 0, 0, 0] ++ [16, 0, 0, 0]

/-- A line-layer file whose header table starts at offset 16 and holds only
24 bytes, so header block 2 has 4 of its 10 bytes. -/
def fileC1w : List Nat :=
  magicLine ++ [0, 0, 0, 0] ++ [16, 0, 0, 0] ++ List.replicate 24 7

/-- C1, counterexample.  `fileC1` has a recognised magic tag and a header
table with fewer than 100 bytes, yet the decode does not fail with any
dedicated header-corruption error (none exists in the source): it raises a
raw `struct.error` — exactly the undeclared low-level exception the claim
rules out — from the 8-byte unpack of the truncated header block. -/
theorem C1_counterexample :
    readBytes fileC1 0 8 = magicLine ∧
    (fileC1.drop 16).length < 100 ∧
    decode_header_phase fileC1 = .error .structError := by
  refine ⟨rfl, by decide, rfl⟩

/-- C1, amended.  For every file with a recognised magic tag whose selected
header block was truncated (fewer than its 10 bytes were available), the
decode fails with a raw `struct.error` from the `(offset, volume)` unpack;
the source has no `CorruptHeader` error and `_read_headers` itself never
fails on short data. -/
theorem C1_header_underflow_is_struct_error (file : List Nat) (st : ShapeType)
    (hs : List (List Nat)) (hdet : detect_shape_type file = .ok st)
    (hread : read_headers file = .ok hs)
    (hshort : (hs.getD (headerIndexFor st) []).length < 10) :
    decode_header_phase file = .error .structError := by
  have hlen : ((hs.getD (headerIndexFor st) []).take
      ((hs.getD (headerIndexFor st) []).length - 2)).length ≠ 8 := by
    rw [List.length_take]
    omega
  unfold decode_header_phase
  rw [hdet, hread]
  show unpack_2i ((hs.getD (headerIndexFor st) []).take
      ((hs.getD (headerIndexFor st) []).length - 2)) = .error .structError
  unfold unpack_2i
  rw [if_neg hlen]

/-- C1, witness for the amended theorem at the concrete file `fileC1w`. -/
theorem C1_witness :
    decode_header_phase fileC1w = .error .structError := by
  have hdet : detect_shape_type fileC1w = .ok .LINE := by decide
  have hread : read_headers fileC1w =
      .ok ((List.range 10).map (fun i => readBytes fileC1w (16 + 10 * i) 10)) := by
    decide
  exact C1_header_underflow_is_struct_error fileC1w .LINE _ hdet hread (by decide)

/-!
Attribute-table string fields (`_parse_attributes`, type code 0).

The bytes of a string field are decoded with the legacy double-byte `gbk`
codec.  The codec itself is external to the repository, so it is modelled
structurally: bytes below 0x80 are single-character ASCII, a lead byte in
0x81..0xFE followed by a trail byte in 0x40..0xFE (except 0x7F) forms a
double-byte character (the actual GBK code table is abstracted by the
injective embedding `gbkChar2`), and anything else is a decode error whose
reported position is the start of the offending sequence — exactly the
validity domain and error positions of Python's `gbk` codec. -/

/-- Lead byte of a GBK double-byte sequence. -/
def gbkIsLead (b : Nat) : Bool :=
  129 ≤ b && b ≤ 254

/-- Valid trail byte of a GBK double-byte sequence. -/
def gbkIsTrail (t : Nat) : Bool :=
  (64 ≤ t && t ≤ 254) && t != 127

/-- Abstract character assigned to a valid GBK double-byte pair; injective
and disjoint from ASCII, standing in for the real GBK code table. -/
def gbkChar2 (lead trail : Nat) : Char :=
  Char.ofNat (65536 + lead * 256 + trail)

/-- Strict GBK decoding of a byte list; on failure returns the byte
position of the first invalid sequence, as `UnicodeDecodeError` does. -/
def gbkDecodeFrom : List Nat → Nat → Except Nat (List Char)
  | [], _ => .ok []
  | b :: rest, p =>
    if b < 128 then
      match gbkDecodeFrom rest (p + 1) with
      | .ok cs => .ok (Char.ofNat b :: cs)
      | .error q => .error q
    else if gbkIsLead b then
      match rest with
      | [] => .error p
      | t :: rest2 =>
        if gbkIsTrail t then
          match gbkDecodeFrom rest2 (p + 2) with
          | .ok cs => .ok (gbkChar2 b t :: cs)
          | .error q => .error q
        else .error p
    else .error p

/-- The U+FFFD replacement character emitted by `errors='replace'`. -/
def replacementChar : Char := Char.ofNat 65533

/-- GBK decoding with `errors='replace'`: an invalid byte becomes U+FFFD
and decoding resumes at the next byte. -/
def gbkDecodeReplace : List Nat → List Char
  | [] => []
  | b :: rest =>
    if b < 128 then Char.ofNat b :: gbkDecodeReplace rest
    else if gbkIsLead b then
      match rest with
      | [] => [replacementChar]
      | t :: rest2 =>
        if gbkIsTrail t then gbkChar2 b t :: gbkDecodeReplace rest2
        else replacementChar :: gbkDecodeReplace (t :: rest2)
    else replacementChar :: gbkDecodeReplace rest

/-- Python `str.strip` with a NUL argument: drop NUL characters from both
ends. -/
def stripNulls (cs : List Char) : String :=
  String.mk (((cs.dropWhile (fun c => c = Char.ofNat 0)).reverse.dropWhile
    (fun c => c = Char.ofNat 0)).reverse)

/-- The text of the `UnicodeDecodeError` raised by the GBK codec, modelled
up to the characters that the regular-expression search below can inspect:
like the real message, it contains the words `in position`, the decimal
error position, and no backslash character. -/
def gbkErrMsg (b p : Nat) : String :=
  "gbk codec cant decode byte " ++ Nat.repr b ++ " in position " ++
    Nat.repr p ++ ": illegal multibyte sequence"

/-- Is `pat` the fragment of `s` starting at index `i`? -/
def strContainsAt (s pat : List Char) (i : Nat) : Bool :=
  (s.drop i).take pat.length == pat

/-- Substring search. -/
def strContains (s pat : List Char) : Bool :=
  (List.range (s.length + 1)).any (fun i => strContainsAt s pat i)

/-- Text the regex in line 136 of the source actually matches.  The source
pattern is the raw string literal `in position (\\d+)`, so the regex engine
sees an escaped backslash followed by `d+`: the literal text `in position `
then a backslash then the letter `d`. -/
def regexPatternC2 : List Char :=
  "in position ".data ++ [Char.ofNat 92, Char.ofNat 100]

/-- Regex search of line 136: does the error message contain the literal
text `in position ` followed by a backslash and a letter `d`? -/
def regexFindsPosition (msg : String) : Bool :=
  strContains msg.data regexPatternC2

/-- The type-0 (string) branch of the attribute-record decoding loop,
lines 132–140 of the source: try a strict GBK decode and strip NULs; on a
`UnicodeDecodeError`, search its message with the (mis-escaped) pattern
`in position (\\d+)`; if it matched, `int` of the captured group — a
backslash followed by letters `d` — would raise `ValueError`; otherwise
fall back to decoding with `errors='replace'` and strip NULs. -/
def decode_string_field (value : List Nat) : Except PyErr String :=
  match gbkDecodeFrom value 0 with
  | .ok cs => .ok (stripNulls cs)
  | .error p =>
    if regexFindsPosition (gbkErrMsg (value.getD p 0) p) then
      .error (.valueError "invalid literal for int")
    else .ok (stripNulls (gbkDecodeReplace value))

/-- C2, code-bug theorem.  The field bytes `[0x41, 0x80]` fail strict GBK
decoding at position 1, so the claimed (and clearly intended, compare line
81 which uses the correctly escaped pattern) behaviour is truncation to the
prefix before position 1, the string `A`.  But the doubled backslash in the
raw-string pattern of line 136 can never match the error message (which
contains no backslash), so the dead truncation branch is skipped and the
field decodes with `errors='replace'` to `A` followed by U+FFFD — not the
truncated prefix. -/
theorem C2_truncation_branch_dead :
    gbkDecodeFrom [65, 128] 0 = .error 1 ∧
    regexFindsPosition (gbkErrMsg 128 1) = false ∧
    decode_string_field [65, 128] = .ok "A�" ∧
    decode_string_field [65, 128] ≠ .ok "A" ∧
    (gbkDecodeFrom ([65, 128].take 1) 0).map stripNulls = .ok "A" := by
  refine ⟨rfl, by decide, rfl, by decide, rfl⟩

/-!
Coordinate-reference-system resolution (`_parse_crs`).

The function reads the projection-type byte (offset 109), the ellipsoid
byte (offset 110), the coordinate-scale double (offset 143) and the packed
central-meridian double (offset 151); these reads are modelled as
parameters.  `pyproj.CRS` construction is external and is modelled as the
tagged value `CrsVal`.

The packed meridian is decoded by string manipulation on the float:
`int(str(cl).split('.')[0][:-4]) + int(…[-4:-2])/60 + int(…[-2:])/3600`.
This is modelled faithfully below (`parseDMS`), including its failure:
when the integer part of the meridian renders to four characters or fewer
(e.g. the double `0.0`), the `[:-4]` slice is empty and `int('')` raises
`ValueError`.  `str(cl).split('.')[0]` is modelled as the sign plus the
decimal rendering of the truncated magnitude, which matches Python's
rendering of every finite double below the scientific-notation regime
(10^16) — packed `DDDMMSS` meridians live far below it. -/

/-- Value held by the reader's `crs` attribute after `_parse_crs`:  the
empty string, Python `None`, a derived transverse-Mercator (with the
parsed degree-minute-second meridian) or geographic CRS, or an explicit
EPSG CRS from `CRS.from_epsg`. -/
inductive CrsVal where
  | empty : CrsVal
  | pynone : CrsVal
  | tmerc : ℚ → Nat → CrsVal
  | longlat : Nat → CrsVal
  | epsg : Int → CrsVal
deriving DecidableEq

/-- `str(cl).split('.')[0]` for a finite double `cl`: the sign and the
decimal digits of the integer part (truncation toward zero). -/
def intPartChars (q : ℚ) : List Char :=
  if q < 0 then Char.ofNat 45 :: (Nat.repr (q.num.natAbs / q.den)).data
  else (Nat.repr (q.num.natAbs / q.den)).data

/-- Python `int(s)` on a string of sign and digit characters: an optional
leading minus followed by at least one decimal digit; anything else —
in particular the empty string or a bare minus — raises `ValueError`. -/
def pyIntOfString (cs : List Char) : Except PyErr Int :=
  match cs with
  | [] => .error (.valueError "invalid literal for int")
  | c :: rest =>
    if c = Char.ofNat 45 then
      if rest ≠ [] ∧ rest.all (fun d => d.isDigit) then
        .ok (-(Int.ofNat (rest.foldl (fun a d => 10 * a + (d.toNat - 48)) 0)))
      else .error (.valueError "invalid literal for int")
    else
      if (c :: rest).all (fun d => d.isDigit) then
        .ok (Int.ofNat ((c :: rest).foldl (fun a d => 10 * a + (d.toNat - 48)) 0))
      else .error (.valueError "invalid literal for int")

/-- The meridian unpacking of lines 458 and 466: slice the integer-part
string of the double into degrees (`[:-4]`), minutes (`[-4:-2]`) and
seconds (`[-2:]`) and combine; the first failing `int` aborts with
`ValueError`.  Python's clamped negative-index slices are Nat-subtraction
`take`/`drop`. -/
def parseDMS (cl : ℚ) : Except PyErr ℚ := do
  let s := intPartChars cl
  let d ← pyIntOfString (s.take (s.length - 4))
  let m ← pyIntOfString ((s.take (s.length - 2)).drop (s.length - 4))
  let sec ← pyIntOfString (s.drop (s.length - 2))
  .ok ((d : ℚ) + (m : ℚ) / 60 + (sec : ℚ) / 3600)

/-- State left by `_parse_crs`: the final `coordinate_scale` and the `crs`
attribute (`none` means the attribute was never assigned). -/
structure CrsResult where
  scale : ℚ
  crs : Option CrsVal
deriving DecidableEq

/-- Integer keys of `ellip_dict` (the key `cgcs2000` is a string and can
never equal the ellipsoid byte). -/
def knownEllipsoids : List Nat := [1, 2, 7, 9, 10, 11, 16, 116]

/-- `CRS.from_epsg`, abstracted as a total constructor of an explicit CRS. -/
def crsFromEpsg (code : Int) : CrsVal := .epsg code

/-- The projection-type dispatch of `_parse_crs` (the `if/elif` chain on
`proj_type`), entered with `coordinate_scale = scale` and the `crs`
attribute holding `crs0` (`none` when still unassigned).  In the
transverse-Mercator arm the meridian is parsed before the `ellip_dict`
lookup, so its `ValueError` precedes any `KeyError`; in the 2/3 arm the
scale division happens first but a meridian `ValueError` still aborts the
decode. -/
def crsStep (proj ellip : Nat) (wkid : Option Int) (scale : ℚ)
    (crs0 : Option CrsVal) (meridian : ℚ) : Except PyErr CrsResult :=
  if proj = 5 ∧ wkid = none then
    match parseDMS meridian with
    | .error e => .error e
    | .ok cl =>
      if knownEllipsoids.contains ellip then .ok ⟨scale, some (.tmerc cl ellip)⟩
      else .error .keyError
  else if proj = 0 ∧ wkid = none then
    if knownEllipsoids.contains ellip then .ok ⟨scale, some (.longlat ellip)⟩
    else .error .keyError
  else if (proj = 2 ∨ proj = 3) ∧ wkid = none then
    match parseDMS meridian with
    | .error e => .error e
    | .ok _ => .ok ⟨scale / 1000, some .pynone⟩
  else .ok ⟨scale, crs0⟩

/-- The tail of `_parse_crs` after the unknown-ellipsoid block: the
projection-type dispatch followed by the final caller-override
assignment. -/
def crsTail (proj ellip : Nat) (wkid : Option Int) (scale : ℚ)
    (crs0 : Option CrsVal) (meridian : ℚ) : Except PyErr CrsResult :=
  match crsStep proj ellip wkid scale crs0 meridian with
  | .error e => .error e
  | .ok r =>
    match wkid with
    | some w => .ok ⟨r.scale, some (crsFromEpsg w)⟩
    | none => .ok r

/-- `_parse_crs`.  `scaleArg` is the caller's `scale_factor` (`scale_key`
is 1 exactly when it is supplied), `fileScale` is the double stored at
offset 143, and `wkid` is the caller's reference-system code. -/
def parse_crs (proj ellip : Nat) (wkid : Option Int) (scaleArg : Option ℚ)
    (fileScale meridian : ℚ) : Except PyErr CrsResult :=
  if ¬ (knownEllipsoids.contains ellip) = true ∨ scaleArg.getD fileScale = 0 then
    if ellip = 0 ∧ (wkid = none ∨ wkid = some 0) then
      .ok ⟨scaleArg.getD fileScale, some .empty⟩
    else
      crsTail proj ellip wkid
        (if scaleArg.isSome then scaleArg.getD fileScale / 1000 else 1)
        (some .empty) meridian
  else crsTail proj ellip wkid (scaleArg.getD fileScale) none meridian

/-- With a caller-supplied reference code, every branch of the
projection-type dispatch is skipped. -/
theorem crsStep_some (proj ellip : Nat) (w : Int) (scale : ℚ)
    (crs0 : Option CrsVal) (meridian : ℚ) :
    crsStep proj ellip (some w) scale crs0 meridian = .ok ⟨scale, crs0⟩ := by
  unfold crsStep
  rw [if_neg (fun h => Option.noConfusion h.2), if_neg (fun h => Option.noConfusion h.2),
    if_neg (fun h => Option.noConfusion h.2)]

/-- With a caller-supplied reference code, the tail of `_parse_crs` always
resolves to the explicit system. -/
theorem crsTail_some (proj ellip : Nat) (w : Int) (scale : ℚ)
    (crs0 : Option CrsVal) (meridian : ℚ) :
    crsTail proj ellip (some w) scale crs0 meridian =
      .ok ⟨scale, some (crsFromEpsg w)⟩ := by
  unfold crsTail
  rw [crsStep_some]

/-- Without a caller reference code the tail of `_parse_crs` is just the
projection-type dispatch. -/
theorem crsTail_none (proj ellip : Nat) (scale : ℚ) (crs0 : Option CrsVal)
    (meridian : ℚ) :
    crsTail proj ellip none scale crs0 meridian =
      crsStep proj ellip none scale crs0 meridian := by
  unfold crsTail
  cases h : crsStep proj ellip none scale crs0 meridian with
  | error e => rfl
  | ok r => rfl

/-- The projection-type dispatch for codes other than 0 and 5, without a
caller reference code; in the 2/3 arm the meridian parse must succeed. -/
theorem crsStep_none_other (proj ellip : Nat) (scale : ℚ)
    (crs0 : Option CrsVal) (meridian : ℚ) (hp0 : proj ≠ 0) (hp5 : proj ≠ 5)
    (hdms : proj = 2 ∨ proj = 3 → ∃ cl, parseDMS meridian = .ok cl) :
    crsStep proj ellip none scale crs0 meridian =
      if proj = 2 ∨ proj = 3 then .ok ⟨scale / 1000, some .pynone⟩
      else .ok ⟨scale, crs0⟩ := by
  unfold crsStep
  rw [if_neg (fun h => hp5 h.1), if_neg (fun h => hp0 h.1)]
  by_cases h23 : proj = 2 ∨ proj = 3
  · obtain ⟨cl, hcl⟩ := hdms h23
    rw [if_pos ⟨h23, rfl⟩, hcl, if_pos h23]
  · rw [if_neg (fun h => h23 h.1), if_neg h23]

/-- C3, counterexample.  Ellipsoid code 3 is nonzero and unmapped and no
caller override is supplied, yet resolution can be fatal: with projection
type 0 the `ellip_dict[ellipsoid]` lookup in the geographic branch raises
`KeyError`, and with projection type 2 and meridian double `0.0` the
`int(str(cl).split('.')[0][:-4])` meridian parse raises `ValueError`
(`'0'[:-4]` is empty); either way decoding does not continue. -/
theorem C3_counterexample :
    knownEllipsoids.contains 3 = false ∧
    parse_crs 0 3 none none 5 0 = .error .keyError ∧
    parse_crs 2 3 none none 5 0 = .error (.valueError "invalid literal for int") := by
  exact ⟨by decide, by decide, by rfl⟩

/-- C3, amended.  For an unknown nonzero ellipsoid code with no caller
reference-system override, resolution is non-fatal only when the
projection-type code is neither 0 nor 5 (those raise `KeyError`, type 5
possibly a meridian `ValueError` first) and, for projection types 2 and 3,
only when the degree-minute-second parse of the packed meridian succeeds
(its integer part renders to at least five characters; otherwise `int('')`
raises `ValueError` and the decode aborts).  Then the scale is reset to 1
when no caller scale override was supplied and divided by 1000 when one
was, the CRS becomes the empty value, and — for projection types 2 and 3 —
the scale is divided by a further 1000 and the CRS ends up as Python
`None` instead. -/
theorem C3_unknown_ellipsoid_nonfatal (proj ellip : Nat) (scaleArg : Option ℚ)
    (fileScale meridian : ℚ)
    (hunk : knownEllipsoids.contains ellip = false)
    (hz : ellip ≠ 0) (hp0 : proj ≠ 0) (hp5 : proj ≠ 5)
    (hdms : proj = 2 ∨ proj = 3 → ∃ cl, parseDMS meridian = .ok cl) :
    parse_crs proj ellip none scaleArg fileScale meridian =
      .ok ⟨(if scaleArg.isSome then scaleArg.getD fileScale / 1000 else 1) /
             (if proj = 2 ∨ proj = 3 then 1000 else 1),
           some (if proj = 2 ∨ proj = 3 then CrsVal.pynone else CrsVal.empty)⟩ := by
  unfold parse_crs
  have hcond : ¬ (knownEllipsoids.contains ellip) = true ∨
      (scaleArg.getD fileScale : ℚ) = 0 :=
    Or.inl (by rw [hunk]; exact Bool.false_ne_true)
  rw [if_pos hcond, if_neg (fun h => hz h.1), crsTail_none,
    crsStep_none_other proj ellip _ _ meridian hp0 hp5 hdms]
  by_cases h23 : proj = 2 ∨ proj = 3
  · rw [if_pos h23, if_pos h23, if_pos h23]
  · rw [if_neg h23, if_neg h23, if_neg h23, div_one]

/-- C3, witness: projection type 2, ellipsoid 3, no overrides, with the
parseable packed meridian 1173056 (117°30′56″) — the scale is reset to 1
and then divided by 1000, and the CRS becomes Python `None`. -/
theorem C3_witness :
    knownEllipsoids.contains 3 = false ∧
    parseDMS 1173056 = .ok (117 + 30 / 60 + 56 / 3600) ∧
    parse_crs 2 3 none none 5 1173056 = .ok ⟨1 / 1000, some CrsVal.pynone⟩ := by
  refine ⟨by decide, by rfl, ?_⟩
  have h := C3_unknown_ellipsoid_nonfatal 2 3 none 5 1173056 (by decide)
    (by decide) (by decide) (by decide)
    (fun _ => ⟨117 + 30 / 60 + 56 / 3600, by rfl⟩)
  simpa using h

/-- C5, counterexample.  The caller-supplied reference-system code 0 does
not win: with ellipsoid code 0 the early-return branch treats `wkid = 0` as
no override and leaves the CRS empty rather than resolving the explicit
system. -/
theorem C5_counterexample :
    parse_crs 0 0 (some 0) none 5 0 = .ok ⟨5, some CrsVal.empty⟩ ∧
    (some CrsVal.empty : Option CrsVal) ≠ some (crsFromEpsg 0) := by
  exact ⟨by decide, by decide⟩

/-- C5, amended.  For every caller-supplied nonzero reference-system code,
the resulting CRS is the explicit system resolved from that code, whatever
the file's projection-type and ellipsoid codes and scale: the string `'0'`
is how the source spells an absent override, so code 0 is excluded. -/
theorem C5_nonzero_wkid_wins (proj ellip : Nat) (scaleArg : Option ℚ)
    (fileScale meridian : ℚ) (w : Int) (hw : w ≠ 0) :
    (parse_crs proj ellip (some w) scaleArg fileScale meridian).map
      (fun r => r.crs) = .ok (some (crsFromEpsg w)) := by
  have hw' : ¬ (ellip = 0 ∧
      ((some w : Option Int) = none ∨ (some w : Option Int) = some 0)) := by
    rintro ⟨-, h | h⟩
    · exact Option.noConfusion h
    · exact hw (by injection h)
  unfold parse_crs
  by_cases hcase : ¬ (knownEllipsoids.contains ellip) = true ∨
      (scaleArg.getD fileScale : ℚ) = 0
  · rw [if_pos hcase, if_neg hw', crsTail_some]
    rfl
  · rw [if_neg hcase, crsTail_some]
    rfl

/-- C5, witness: explicit code 4326 wins over projection type 5 and
ellipsoid 3. -/
theorem C5_witness :
    (parse_crs 5 3 (some 4326) none 5 0).map (fun r => r.crs) =
      .ok (some (crsFromEpsg 4326)) :=
  C5_nonzero_wkid_wins 5 3 none 5 0 4326 (by decide)

/-!
Polygon assembly (`get_multipolygons`).

Rings are values of an arbitrary type `α`; the shapely containment test
(`Polygon(lines[i]).within(Polygon(lines[j])`, with its point-in-polygon
fallback) is an external geometric library and is modelled as the boolean
oracle `w : α → α → Bool`.  A polygon `Polygon(i[0], i[1:])` is modelled as
the ring list itself: head = outer ring, tail = hole rings.  The Python
`level_0` dict keeps insertion order, modelled by an association list.
The Python function recurses without any structural guarantee of progress
(if every ring has two or more containers, the recursive call receives the
whole input again and never terminates); the embedding therefore returns
`none` exactly on the inputs where the source diverges, driven by a fuel
of `length + 1`, which the strict-decrease guard keeps from ever running
out on terminating inputs. -/

/-- The containment matrix `relation`: entry `(i, j)` is 1 iff `i ≠ j` and
ring `i` lies within ring `j`. -/
def ringRelation {α : Type} (w : α → α → Bool) (lines : List α) (i j : Nat) : Bool :=
  if i = j then false
  else
    match lines.get? i, lines.get? j with
    | some a, some b => w a b
    | _, _ => false

/-- Row sum of the containment matrix: how many rings contain ring `i`. -/
def containerCount {α : Type} (w : α → α → Bool) (lines : List α) (i : Nat) : Nat :=
  ((List.range lines.length).filter (fun j => ringRelation w lines i j)).length

/-- `level_0[k].append(v)`, creating the key at the end of the dict when
absent — Python dicts preserve insertion order. -/
def dictAppend {α : Type} (d : List (Nat × List α)) (k : Nat) (v : α) :
    List (Nat × List α) :=
  if d.any (fun e => e.1 = k) then
    d.map (fun e => if e.1 = k then (e.1, e.2 ++ [v]) else e)
  else d ++ [(k, [v])]

/-- `np.argwhere(relation[i] == 1)[0][0]`: the first container of ring `i`. -/
def firstContainer {α : Type} (w : α → α → Bool) (lines : List α) (i : Nat) : Nat :=
  (((List.range lines.length).find? (fun j => ringRelation w lines i j))).getD 0

/-- The two loops building `level_0`: rings with no container seed one
entry each, then every ring with exactly one container is appended to its
container's entry. -/
def buildLevel0 {α : Type} (w : α → α → Bool) (lines : List α) :
    List (Nat × List α) :=
  (List.range lines.length).foldl
    (fun d i =>
      if containerCount w lines i = 1 then
        match lines.get? i with
        | some a => dictAppend d (firstContainer w lines i) a
        | none => d
      else d)
    ((List.range lines.length).foldl
      (fun d i =>
        if containerCount w lines i = 0 then
          match lines.get? i with
          | some a => d ++ [(i, [a])]
          | none => d
        else d)
      [])

/-- `level_0.values()` as polygons: each entry list is one polygon, head =
outer ring, tail = holes. -/
def levelZeroPolys {α : Type} (w : α → α → Bool) (lines : List α) :
    List (List α) :=
  (buildLevel0 w lines).map (fun e => e.2)

/-- The rings with more than one container, in index order — the argument
of the recursive call. -/
def multiContained {α : Type} (w : α → α → Bool) (lines : List α) : List α :=
  (List.range lines.length).filterMap
    (fun i => if 1 < containerCount w lines i then lines.get? i else none)

/-- Fuel-indexed body of `get_multipolygons`. -/
def get_multipolygons_core {α : Type} (w : α → α → Bool) :
    Nat → List α → Option (List (List α))
  | 0, _ => none
  | fuel + 1, lines =>
    if (List.range lines.length).any (fun i => containerCount w lines i = 2) then
      if (multiContained w lines).length < lines.length then
        match get_multipolygons_core w fuel (multiContained w lines) with
        | some rest => some (levelZeroPolys w lines ++ rest)
        | none => none
      else none
    else some (levelZeroPolys w lines)

/-- `get_multipolygons`: emit the level-0 polygons; when some ring has
exactly two containers, append the recursion on the rings with more than
one container.  The result is `none` exactly when the Python recursion
never terminates. -/
def get_multipolygons {α : Type} (w : α → α → Bool) (lines : List α) :
    Option (List (List α)) :=
  get_multipolygons_core w (lines.length + 1) lines

/-- The fuel argument is irrelevant as long as it exceeds the list length. -/
theorem get_multipolygons_core_fuel {α : Type} (w : α → α → Bool) :
    ∀ (f1 f2 : Nat) (lines : List α), lines.length < f1 → lines.length < f2 →
      get_multipolygons_core w f1 lines = get_multipolygons_core w f2 lines := by
  intro f1
  induction f1 with
  | zero => intro f2 lines h1 _; omega
  | succ f ih =>
    intro f2 lines h1 h2
    cases f2 with
    | zero => omega
    | succ g =>
      unfold get_multipolygons_core
      by_cases hany : ((List.range lines.length).any
          (fun i => containerCount w lines i = 2)) = true
      · rw [if_pos hany, if_pos hany]
        by_cases hlt : (multiContained w lines).length < lines.length
        · rw [if_pos hlt, if_pos hlt, ih g (multiContained w lines) (by omega) (by omega)]
        · rw [if_neg hlt, if_neg hlt]
      · rw [if_neg (by simpa using hany), if_neg (by simpa using hany)]

/-- C7.  At the model's level of abstraction, one ring fully contained in
another means the containment oracle holds in exactly one direction; two
disjoint rings mean it holds in neither.  For the first input the result is
exactly one polygon whose hole list has length 1; for the second, exactly
two polygons with empty hole lists. -/
theorem C7_two_ring_assembly {α : Type} (a b : α) (w : α → α → Bool) :
    (w b a = true → w a b = false → get_multipolygons w [a, b] = some [[a, b]]) ∧
    (w a b = false → w b a = false → get_multipolygons w [a, b] = some [[a], [b]]) := by
  constructor
  · intro hba hab
    have : get_multipolygons w [a, b] =
        get_multipolygons_core w 3 [a, b] := rfl
    rw [this]
    unfold get_multipolygons_core
    simp [levelZeroPolys, buildLevel0, containerCount, ringRelation, dictAppend,
      firstContainer, List.range_succ, hba, hab]
  · intro hab hba
    have : get_multipolygons w [a, b] =
        get_multipolygons_core w 3 [a, b] := rfl
    rw [this]
    unfold get_multipolygons_core
    simp [levelZeroPolys, buildLevel0, containerCount, ringRelation, dictAppend,
      firstContainer, List.range_succ, hba, hab]

/-- C7, witness: concrete two-ring instances of both scenarios. -/
theorem C7_witness :
    get_multipolygons (fun x y : Nat => x == 20 && y == 10) [10, 20] = some [[10, 20]] ∧
    get_multipolygons (fun _ _ : Nat => false) [10, 20] = some [[10], [20]] := by
  constructor
  · exact (C7_two_ring_assembly 10 20 (fun x y => x == 20 && y == 10)).1
      (by decide) (by decide)
  · exact (C7_two_ring_assembly 10 20 (fun _ _ => false)).2 (by decide) (by decide)

/-- C4, amended.  The function recurses exactly when some ring has exactly
two containing rings — not whenever some ring has more than one.  When it
does recurse (and the multiply-contained subset is a proper subset, which
is what keeps the source's recursion terminating), the result is the
resolved level-0 polygons followed by the recursive resolution of the
rings contained by more than one ring. -/
theorem C4_recursion_on_exactly_two {α : Type} (w : α → α → Bool) (lines : List α)
    (h2 : ((List.range lines.length).any
      (fun i => containerCount w lines i = 2)) = true)
    (hlt : (multiContained w lines).length < lines.length) :
    get_multipolygons w lines =
      (get_multipolygons w (multiContained w lines)).map
        (fun rest => levelZeroPolys w lines ++ rest) := by
  show get_multipolygons_core w (lines.length + 1) lines = _
  unfold get_multipolygons_core
  rw [if_pos h2, if_pos hlt,
    get_multipolygons_core_fuel w lines.length
      ((multiContained w lines).length + 1) (multiContained w lines) hlt
      (Nat.lt_succ_self _)]
  have hdef : get_multipolygons_core w ((multiContained w lines).length + 1)
      (multiContained w lines) = get_multipolygons w (multiContained w lines) := rfl
  rw [hdef]
  cases hres : get_multipolygons w (multiContained w lines) with
  | none => rfl
  | some rest => rfl

/-- Four abstract rings for the C4 counterexample. -/
def linesC4 : List Nat := [10, 11, 12, 13]

/-- Containment oracle for the C4 counterexample: ring 13 lies within each
of rings 10, 11 and 12 (three mutually overlapping, pairwise non-nested
outer rings sharing a small inner ring realise this geometrically). -/
def wC4 (x y : Nat) : Bool := x == 13 && y != 13

/-- C4, counterexample.  Ring 13 has three containing rings — more than
one — so the claim demands a recursion that appends the resolution of the
multiply-contained subset.  But no ring has exactly two containers, so the
code does not recurse: it returns the three level-0 polygons and silently
drops ring 13, instead of the claimed four-polygon result. -/
theorem C4_counterexample :
    1 < containerCount wC4 linesC4 3 ∧
    get_multipolygons wC4 linesC4 = some [[10], [11], [12]] ∧
    (get_multipolygons wC4 (multiContained wC4 linesC4)).map
      (fun rest => levelZeroPolys wC4 linesC4 ++ rest) =
      some [[10], [11], [12], [13]] ∧
    get_multipolygons wC4 linesC4 ≠
      (get_multipolygons wC4 (multiContained wC4 linesC4)).map
        (fun rest => levelZeroPolys wC4 linesC4 ++ rest) := by
  refine ⟨by decide, by decide, by decide, by decide⟩

/-- Three abstract rings for the C4 witness. -/
def linesC4w : List Nat := [5, 6, 7]

/-- Containment oracle for the C4 witness: ring 7 lies within rings 5 and
6, giving it exactly two containers. -/
def wC4w (x y : Nat) : Bool := x == 7 && y != 7

/-- C4, witness: with a ring of exactly two containers the recursion fires
and the amended equation holds at a concrete input. -/
theorem C4_witness :
    get_multipolygons wC4w linesC4w =
      (get_multipolygons wC4w (multiContained wC4w linesC4w)).map
        (fun rest => levelZeroPolys wC4w linesC4w ++ rest) :=
  C4_recursion_on_exactly_two wC4w linesC4w (by decide) (by decide)

/-!
Feature-table building (`_build_geodataframe`).

Attribute rows and geometries are lists of arbitrary element types; the
external `GeoDataFrame` constructor is modelled as the pairing of the two
lists, raising the pandas `ValueError` whose message contains
`Length of values` exactly when their lengths differ. -/

/-- `gpd.GeoDataFrame(data, geometry=geom)`: succeeds with the paired rows
when the lengths agree, otherwise raises the length-mismatch
`ValueError`. -/
def gdfConstruct {α β : Type} (attrs : List α) (geoms : List β) :
    Except PyErr (List (α × β)) :=
  if attrs.length = geoms.length then .ok (attrs.zip geoms)
  else .error (.valueError "Length of values does not match length of index")

/-- Does `str(e)` contain the text `Length of values`? -/
def isLengthMismatch : PyErr → Bool
  | .valueError msg => strContains msg.data ("Length of values".data)
  | _ => false

/-- `_build_geodataframe`: try the constructor; on the length-mismatch
`ValueError` truncate both inputs to the shorter length, set the repair
flag and retry; re-raise any other error. -/
def build_geodataframe {α β : Type} (attrs : List α) (geoms : List β) :
    Except PyErr (List (α × β) × Bool) :=
  match gdfConstruct attrs geoms with
  | .ok t => .ok (t, false)
  | .error e =>
    if isLengthMismatch e then
      match gdfConstruct (attrs.take (min attrs.length geoms.length))
          (geoms.take (min attrs.length geoms.length)) with
      | .ok t => .ok (t, true)
      | .error e2 => .error e2
    else .error e

/-- C6.  The table builder never fails: with mismatched lengths both
sequences are truncated to their common prefix of length
`min (len attrs) (len geoms)` and the repaired flag is true; with equal
lengths all rows are kept and the flag is false. -/
theorem C6_length_mismatch_repair {α β : Type} (attrs : List α) (geoms : List β) :
    build_geodataframe attrs geoms =
      .ok ((attrs.take (min attrs.length geoms.length)).zip
             (geoms.take (min attrs.length geoms.length)),
           decide (attrs.length ≠ geoms.length)) := by
  unfold build_geodataframe
  by_cases heq : attrs.length = geoms.length
  · have hc : gdfConstruct attrs geoms = .ok (attrs.zip geoms) := by
      unfold gdfConstruct
      rw [if_pos heq]
    have hmin : min attrs.length geoms.length = attrs.length := by omega
    have hmin2 : min attrs.length geoms.length = geoms.length := by omega
    have htake1 : attrs.take (min attrs.length geoms.length) = attrs := by
      rw [hmin, List.take_length]
    have htake2 : geoms.take (min attrs.length geoms.length) = geoms := by
      rw [hmin2, List.take_length]
    have hd : decide (attrs.length ≠ geoms.length) = false := by
      simp [heq]
    rw [htake1, htake2, hd]
    simp only [hc]
  · have hc : gdfConstruct attrs geoms =
        .error (.valueError "Length of values does not match length of index") := by
      unfold gdfConstruct
      rw [if_neg heq]
    have hlen : (attrs.take (min attrs.length geoms.length)).length =
        (geoms.take (min attrs.length geoms.length)).length := by
      rw [List.length_take, List.length_take]
      omega
    have hc2 : gdfConstruct (attrs.take (min attrs.length geoms.length))
        (geoms.take (min attrs.length geoms.length)) =
        .ok ((attrs.take (min attrs.length geoms.length)).zip
          (geoms.take (min attrs.length geoms.length))) := by
      unfold gdfConstruct
      rw [if_pos hlen]
    have hmsg : isLengthMismatch
        (.valueError "Length of values does not match length of index") = true := by
      decide
    have hd : decide (attrs.length ≠ geoms.length) = true := by
      simp [heq]
    rw [hd]
    simp only [hc, hc2]
    rw [if_pos hmsg]

/-!
Output sanitisation (`fix_large_values` inside `to_file`).

A numeric pandas column is a list of optional rationals (`none` is a null
entry); `col.dtype in [...]` is the boolean `dtypeIsNumeric`; the masked
assignment `df.loc[large_values, column_name] = 0.0` replaces exactly the
masked entries with 0. -/

/-- The elementwise mask `(col.abs() > threshold) | (col.isnull())`. -/
def largeMask (threshold : ℚ) (v : Option ℚ) : Bool :=
  match v with
  | none => true
  | some x => decide (|x| > threshold)

/-- `fix_large_values`: on a numeric column, build the mask of entries that
are null or exceed the threshold in absolute value and, if any entry is
masked, zero exactly the masked entries. -/
def fix_large_values (dtypeIsNumeric : Bool) (col : List (Option ℚ))
    (threshold : ℚ) : List (Option ℚ) :=
  if dtypeIsNumeric then
    if (col.map (largeMask threshold)).any (fun b => b) then
      (col.zip (col.map (largeMask threshold))).map
        (fun vl => if vl.2 then some 0 else vl.1)
    else col
  else col

/-- Zipping a column with its own mask and assigning on the mask is the
pointwise masked assignment. -/
theorem zip_mask_map (threshold : ℚ) (col : List (Option ℚ)) :
    (col.zip (col.map (largeMask threshold))).map
        (fun vl => if vl.2 then some 0 else vl.1) =
      col.map (fun v => if largeMask threshold v then some 0 else v) := by
  induction col with
  | nil => rfl
  | cons v rest ih =>
    simp only [List.map_cons, List.zip_cons_cons, ih]

/-- When no entry is masked, the pointwise masked assignment is the
identity. -/
theorem mask_none_fix (threshold : ℚ) : ∀ col : List (Option ℚ),
    ((col.map (largeMask threshold)).any (fun b => b)) = false →
    col.map (fun v => if largeMask threshold v then some 0 else v) = col := by
  intro col
  induction col with
  | nil => intro _; rfl
  | cons v rest ih =>
    intro h
    simp only [List.map_cons, List.any_cons, Bool.or_eq_false_iff] at h
    rw [List.map_cons, if_neg (by rw [h.1]; exact Bool.false_ne_true), ih h.2]

/-- Pointwise description of the sanitiser on a numeric column. -/
theorem fix_large_values_pointwise (col : List (Option ℚ)) (threshold : ℚ) :
    fix_large_values true col threshold =
      col.map (fun v => if largeMask threshold v then some 0 else v) := by
  unfold fix_large_values
  rw [if_pos rfl]
  by_cases hany : ((col.map (largeMask threshold)).any (fun b => b)) = true
  · rw [if_pos hany, zip_mask_map]
  · rw [if_neg hany, mask_none_fix threshold col (Bool.not_eq_true _ ▸ hany)]

/-- C8.  Before writing, the sanitiser with the 1e12 threshold replaces
with 0 exactly the null entries and those whose absolute value exceeds
1e12, leaving all other entries unchanged; in particular the numeric
column `[5, 2e13, null, -3e13]` becomes `[5, 0, 0, 0]`. -/
theorem C8_sanitizer :
    (∀ col : List (Option ℚ), fix_large_values true col (10 ^ 12) =
      col.map (fun v => match v with
        | none => some 0
        | some x => if |x| > 10 ^ 12 then some 0 else some x)) ∧
    fix_large_values true [some 5, some (2 * 10 ^ 13), none, some (-3 * 10 ^ 13)]
        (10 ^ 12) = [some 5, some 0, some 0, some 0] := by
  have hfun : ∀ (v : Option ℚ), (if largeMask (10 ^ 12) v then some 0 else v) =
      (match v with
        | none => some 0
        | some x => if |x| > 10 ^ 12 then some 0 else some x) := by
    intro v
    cases v with
    | none => rfl
    | some x =>
      by_cases hx : |x| > 10 ^ 12
      · simp [largeMask, hx]
      · simp [largeMask, hx]
  constructor
  · intro col
    rw [fix_large_values_pointwise]
    exact List.map_congr_left (fun v _ => hfun v)
  · rw [fix_large_values_pointwise]
    rw [List.map_congr_left (fun v _ => hfun v)]
    norm_num

/-!
Column-name de-duplication (`_deduplicate_columns`).

Names are Python strings; the f-string `f"{col}-{idx}"` is string append
with the decimal rendering of `idx`, which is `Nat.repr`.  The source scans
`idx = 1, 2, …` until `f"{col}-{idx}"` is not in `seen`; since the
candidate names for distinct indices are distinct strings and `seen` is
finite, the scan always succeeds within `seen.length + 1` attempts — the
embedding searches that range (returning the least fresh index, like the
loop) and the pigeonhole lemma below proves the fallback arm unreachable.

The injectivity of decimal rendering needed for the pigeonhole argument is
proved from first principles about `Nat.toDigitsCore`. -/

/-- Most-significant-first decimal digit characters of a natural number. -/
def digitsChars (n : Nat) : List Char :=
  if n < 10 then [Nat.digitChar n]
  else digitsChars (n / 10) ++ [Nat.digitChar (n % 10)]
termination_by n
decreasing_by exact Nat.div_lt_self (by omega) (by omega)

/-- `Nat.toDigitsCore` with enough fuel computes `digitsChars`. -/
theorem toDigitsCore_eq_digitsChars :
    ∀ (fuel n : Nat) (acc : List Char), n < fuel →
      Nat.toDigitsCore 10 fuel n acc = digitsChars n ++ acc := by
  intro fuel
  induction fuel with
  | zero => intro n acc h; omega
  | succ f ih =>
    intro n acc h
    simp only [Nat.toDigitsCore]
    by_cases h0 : n / 10 = 0
    · have hn : n < 10 := (Nat.div_eq_zero_iff (by omega)).mp h0
      rw [if_pos h0]
      unfold digitsChars
      rw [if_pos hn, Nat.mod_eq_of_lt hn]
      rfl
    · have hge : 10 ≤ n := by
        by_contra hlt
        exact h0 (Nat.div_eq_of_lt (by omega))
      have hlt : n / 10 < f := by
        have h1 : n / 10 < n := Nat.div_lt_self (by omega) (by omega)
        omega
      rw [if_neg h0, ih (n / 10) (Nat.digitChar (n % 10) :: acc) hlt]
      conv_rhs => rw [digitsChars]
      rw [if_neg (by omega), List.append_assoc]
      rfl

/-- Decimal value of a digit-character list. -/
def digitsVal (cs : List Char) : Nat :=
  cs.foldl (fun a c => 10 * a + (c.toNat - 48)) 0

/-- For decimal digits, `Nat.digitChar` is ASCII 48 plus the digit. -/
theorem digitChar_toNat : ∀ d : Nat, d < 10 → (Nat.digitChar d).toNat = d + 48 := by
  decide

/-- Folding the decimal-value step over `digitsChars n` starting from `a`
yields `a` shifted past the digits, plus `n`. -/
theorem foldl_digitsChars (n : Nat) : ∀ a : Nat,
    (digitsChars n).foldl (fun a c => 10 * a + (c.toNat - 48)) a =
      a * 10 ^ (digitsChars n).length + n := by
  induction n using Nat.strong_induction_on with
  | _ n ih =>
    intro a
    by_cases hn : n < 10
    · unfold digitsChars
      rw [if_pos hn]
      simp only [List.foldl_cons, List.foldl_nil, List.length_cons, List.length_nil]
      rw [digitChar_toNat n hn]
      ring_nf
      omega
    · unfold digitsChars
      rw [if_neg hn]
      rw [List.foldl_append]
      have hdiv : n / 10 < n := Nat.div_lt_self (by omega) (by omega)
      rw [ih (n / 10) hdiv a]
      simp only [List.foldl_cons, List.foldl_nil, List.length_append,
        List.length_cons, List.length_nil]
      rw [digitChar_toNat (n % 10) (Nat.mod_lt n (by omega))]
      have hmod : 10 * (n / 10) + n % 10 = n := Nat.div_add_mod n 10
      have hpow : a * 10 ^ ((digitsChars (n / 10)).length + (0 + 1)) =
          (a * 10 ^ (digitsChars (n / 10)).length) * 10 := by
        ring
      rw [hpow]
      omega

/-- The decimal value of the decimal rendering recovers the number. -/
theorem digitsVal_digitsChars (n : Nat) : digitsVal (digitsChars n) = n := by
  unfold digitsVal
  rw [foldl_digitsChars n 0]
  omega

/-- Decimal renderings of distinct numbers are distinct. -/
theorem digitsChars_injective (m n : Nat) (h : digitsChars m = digitsChars n) :
    m = n := by
  have hm := digitsVal_digitsChars m
  have hn := digitsVal_digitsChars n
  rw [← hm, ← hn, h]

/-- `Nat.repr` is injective. -/
theorem natRepr_injective (m n : Nat) (h : Nat.repr m = Nat.repr n) : m = n := by
  have hd : Nat.toDigits 10 m = Nat.toDigits 10 n := by
    have h2 : (Nat.repr m).data = (Nat.repr n).data := by rw [h]
    exact h2
  have hm : Nat.toDigits 10 m = digitsChars m := by
    have := toDigitsCore_eq_digitsChars (m + 1) m [] (Nat.lt_succ_self m)
    rw [List.append_nil] at this
    exact this
  have hn : Nat.toDigits 10 n = digitsChars n := by
    have := toDigitsCore_eq_digitsChars (n + 1) n [] (Nat.lt_succ_self n)
    rw [List.append_nil] at this
    exact this
  exact digitsChars_injective m n (hm ▸ hn ▸ hd)

/-- The f-string `f"{col}-{idx}"`. -/
def pyFString (col : String) (idx : Nat) : String :=
  col ++ "-" ++ Nat.repr idx

/-- Candidate names for distinct indices are distinct. -/
theorem pyFString_injective (col : String) (j k : Nat)
    (h : pyFString col j = pyFString col k) : j = k := by
  unfold pyFString at h
  have hd : ((col ++ "-").data ++ (Nat.repr j).data) =
      ((col ++ "-").data ++ (Nat.repr k).data) := by
    rw [← String.data_append, ← String.data_append, h]
  exact natRepr_injective j k (String.ext (List.append_cancel_left hd))

/-- Bridge between boolean membership (`in seen`) and propositional
membership for strings. -/
theorem contains_mem_str (l : List String) (a : String) :
    l.contains a = true ↔ a ∈ l := by
  simp [List.contains_eq_any_beq, List.any_eq_true]

/-- The `while new_col in seen: idx += 1` loop of `_deduplicate_columns`:
the least index `idx ≥ 1` with `f"{col}-{idx}"` not in `seen`.  The scan is
bounded by `seen.length + 1`, within which a fresh name provably exists, so
the fallback arm is unreachable. -/
def firstFresh (col : String) (seen : List String) : String :=
  match ((List.range (seen.length + 1)).map (fun k => pyFString col (k + 1))).find?
      (fun c => ! seen.contains c) with
  | some c => c
  | none => col

/-- Pigeonhole: the name the while-loop settles on is fresh. -/
theorem firstFresh_not_mem (col : String) (seen : List String) :
    firstFresh col seen ∉ seen := by
  unfold firstFresh
  cases hf : ((List.range (seen.length + 1)).map
      (fun k => pyFString col (k + 1))).find? (fun c => ! seen.contains c) with
  | some c =>
    have hp := List.find?_some hf
    intro hmem
    rw [Bool.not_eq_eq_eq_not, Bool.not_true] at hp
    exact absurd ((contains_mem_str seen c).mpr hmem) (by rw [hp]; exact Bool.false_ne_true)
  | none =>
    exfalso
    rw [List.find?_eq_none] at hf
    have hsub : ∀ x ∈ (List.range (seen.length + 1)).map
        (fun k => pyFString col (k + 1)), x ∈ seen := by
      intro x hx
      have := hf x hx
      have hb : seen.contains x = true := by simpa using this
      exact (contains_mem_str seen x).mp hb
    have hnodup : ((List.range (seen.length + 1)).map
        (fun k => pyFString col (k + 1))).Nodup := by
      refine (List.nodup_range _).map_on ?_
      intro j _ k _ hjk
      have := pyFString_injective col (j + 1) (k + 1) hjk
      omega
    have hlen : ((List.range (seen.length + 1)).map
        (fun k => pyFString col (k + 1))).length = seen.length + 1 := by
      rw [List.length_map, List.length_range]
    have hcard : (((List.range (seen.length + 1)).map
        (fun k => pyFString col (k + 1))).toFinset).card = seen.length + 1 := by
      rw [List.toFinset_card_of_nodup hnodup, hlen]
    have hsubset : ((List.range (seen.length + 1)).map
        (fun k => pyFString col (k + 1))).toFinset ⊆ seen.toFinset := by
      intro x hx
      rw [List.mem_toFinset] at hx ⊢
      exact hsub x hx
    have hle := Finset.card_le_card hsubset
    have hle2 : seen.toFinset.card ≤ seen.length := List.toFinset_card_le seen
    omega

/-- The loop of `_deduplicate_columns`: emit each name unchanged when not
yet seen, otherwise emit the first fresh suffixed name; either way the
emitted name joins `seen`. -/
def dedup_go : List String → List String → List String
  | _, [] => []
  | seen, c :: cs =>
    if seen.contains c then
      firstFresh c seen :: dedup_go (firstFresh c seen :: seen) cs
    else c :: dedup_go (c :: seen) cs

/-- `_deduplicate_columns`. -/
def deduplicate_columns (cols : List String) : List String :=
  dedup_go [] cols

/-- The loop emits exactly one name per input name. -/
theorem dedup_go_length : ∀ (cols seen : List String),
    (dedup_go seen cols).length = cols.length := by
  intro cols
  induction cols with
  | nil => intro seen; rfl
  | cons c cs ih =>
    intro seen
    unfold dedup_go
    by_cases h : seen.contains c = true
    · rw [if_pos h, List.length_cons, ih]
      rfl
    · rw [if_neg h, List.length_cons, ih]
      rfl

/-- Every name the loop emits is fresh with respect to the `seen` set it
started from. -/
theorem dedup_go_disjoint : ∀ (cols seen : List String) (x : String),
    x ∈ dedup_go seen cols → x ∉ seen := by
  intro cols
  induction cols with
  | nil =>
    intro seen x hx
    simp [dedup_go] at hx
  | cons c cs ih =>
    intro seen x hx
    unfold dedup_go at hx
    by_cases h : seen.contains c = true
    · rw [if_pos h] at hx
      rcases List.mem_cons.mp hx with hx1 | hx2
      · subst hx1
        exact firstFresh_not_mem c seen
      · intro hmem
        exact ih (firstFresh c seen :: seen) x hx2 (List.mem_cons_of_mem _ hmem)
    · rw [if_neg h] at hx
      rcases List.mem_cons.mp hx with hx1 | hx2
      · subst hx1
        intro hmem
        exact h ((contains_mem_str seen x).mpr hmem)
      · intro hmem
        exact ih (c :: seen) x hx2 (List.mem_cons_of_mem _ hmem)

/-- The loop's output has no duplicate names. -/
theorem dedup_go_nodup : ∀ (cols seen : List String),
    (dedup_go seen cols).Nodup := by
  intro cols
  induction cols with
  | nil => intro seen; exact List.nodup_nil
  | cons c cs ih =>
    intro seen
    unfold dedup_go
    by_cases h : seen.contains c = true
    · rw [if_pos h]
      refine List.nodup_cons.mpr ⟨?_, ih _⟩
      intro hmem
      exact dedup_go_disjoint cs (firstFresh c seen :: seen) _ hmem
        (List.mem_cons_self _ _)
    · rw [if_neg h]
      refine List.nodup_cons.mpr ⟨?_, ih _⟩
      intro hmem
      exact dedup_go_disjoint cs (c :: seen) _ hmem (List.mem_cons_self _ _)

/-- On duplicate-free input disjoint from `seen`, the loop changes
nothing. -/
theorem dedup_go_id : ∀ (cols seen : List String), cols.Nodup →
    (∀ c ∈ cols, c ∉ seen) → dedup_go seen cols = cols := by
  intro cols
  induction cols with
  | nil => intro seen _ _; rfl
  | cons c cs ih =>
    intro seen hnd hdisj
    unfold dedup_go
    have hc : ¬ (seen.contains c = true) := by
      intro hc
      exact hdisj c (List.mem_cons_self _ _) ((contains_mem_str seen c).mp hc)
    rw [if_neg hc]
    have htail : dedup_go (c :: seen) cs = cs := by
      apply ih
      · exact (List.nodup_cons.mp hnd).2
      · intro x hx hmem
        rcases List.mem_cons.mp hmem with h1 | h2
        · subst h1
          exact (List.nodup_cons.mp hnd).1 hx
        · exact hdisj x (List.mem_cons_of_mem _ hx) h2
    rw [htail]

/-- C9.  De-duplication appends suffixes `-1`, `-2`, … in first-seen
order: the raw names `A, B, A, A` become exactly `A, B, A-1, A-2`. -/
theorem C9_dedup_example :
    deduplicate_columns ["A", "B", "A", "A"] = ["A", "B", "A-1", "A-2"] := by
  decide

/-- C10.  `_deduplicate_columns` preserves length, always returns pairwise
distinct names, and is the identity on duplicate-free inputs. -/
theorem C10_dedup_invariants (cols : List String) :
    (deduplicate_columns cols).length = cols.length ∧
    (deduplicate_columns cols).Nodup ∧
    (cols.Nodup → deduplicate_columns cols = cols) :=
  ⟨dedup_go_length cols [], dedup_go_nodup cols [],
    fun h => dedup_go_id cols [] h (fun c _ => List.not_mem_nil c)⟩

/-- C10, witness: a concrete duplicate-free input is returned unchanged. -/
theorem C10_witness :
    (["A", "B"] : List String).Nodup ∧
    deduplicate_columns ["A", "B"] = ["A", "B"] :=
  ⟨by decide, (C10_dedup_invariants ["A", "B"]).2.2 (by decide)⟩

